import Mathlib

/-!
Verification of the web-to-markdown scraping pipeline (server.js).
Strings are embedded as `List Char`; the pipeline is embedded as pure
functions over an explicit `World` record that carries the external
collaborators (page fetcher result, readability extractor, turndown
converter, SHA-256 digest, URL hostname parser, clock).
-/

namespace W2M

/-- Char list of a string literal (strings are modelled as `List Char`). -/
def str (s : String) : List Char := s.data

/-- Membership test for the JS `\s` character class (WhiteSpace plus
LineTerminator): tab, LF, VT, FF, CR, space, NBSP, and the Unicode
space separators, as used by `split(/\s+/)`, `\n` matching and `trim()`. -/
def isJsSpace (c : Char) : Bool :=
  let n := c.toNat
  n == 0x09 || n == 0x0a || n == 0x0b || n == 0x0c || n == 0x0d || n == 0x20 ||
  n == 0xa0 || n == 0x1680 || n == 0x2000 || n == 0x2001 || n == 0x2002 ||
  n == 0x2003 || n == 0x2004 || n == 0x2005 || n == 0x2006 || n == 0x2007 ||
  n == 0x2008 || n == 0x2009 || n == 0x200a || n == 0x2028 || n == 0x2029 ||
  n == 0x202f || n == 0x205f || n == 0x3000 || n == 0xfeff

/-- Word counter: number of maximal runs of non-space characters, with a
flag telling whether we are currently inside a word.  `cwGo l false` equals
the JS `l.split(/\s+/).filter(Boolean).length` used at lines 171 and 177. -/
def cwGo : List Char → Bool → Nat
  | [], _ => 0
  | c :: r, inWord =>
    if isJsSpace c then cwGo r false else (if inWord then 0 else 1) + cwGo r true

/-- `s.split(/\s+/).filter(Boolean).length` of the source. -/
def countWords (l : List Char) : Nat := cwGo l false

/-- Whether a scan of `l` starting with flag `b` ends inside a word
(bookkeeping device for append lemmas about `cwGo`). -/
def wordState : List Char → Bool → Bool
  | [], b => b
  | c :: r, _ => wordState r (!isJsSpace c)

/-- JS `String.prototype.trim`: strip `\s` characters from both ends. -/
def jsTrim (l : List Char) : List Char :=
  ((l.dropWhile isJsSpace).reverse.dropWhile isJsSpace).reverse

/-- Embedding of `md.split(/\n(?=#)|\n{2,}/g)` (line 159).  The scanner
walks the characters; `skip = true` means we are inside a run of two or
more newlines that forms one separator (the regex alternative `\n{2,}` is
greedy, so the whole run is consumed).  A single newline directly followed
by `#` is a separator by the lookahead alternative, consuming only the
newline.  Any other single newline is ordinary text.  `acc` is the current
part, reversed. -/
def splitGo : Bool → List Char → List Char → List (List Char)
  | _, [], acc => [acc.reverse]
  | true, c :: r, acc =>
    if c = '\n' then splitGo true r acc else splitGo false r (c :: acc)
  | false, '\n' :: '#' :: r, acc => acc.reverse :: splitGo false ('#' :: r) []
  | false, '\n' :: '\n' :: r, acc => acc.reverse :: splitGo true r []
  | false, c :: r, acc => splitGo false r (c :: acc)

/-- The `parts` array of `chunkMarkdown` (line 159). -/
def splitParts (md : List Char) : List (List Char) := splitGo false md []

/-- Embedding of JS `s.split(/\s+/)` (with the empty-string artifacts JS
produces at the ends), used by line 174 of the source. -/
def wsGo : Bool → List Char → List Char → List (List Char)
  | _, [], acc => [acc.reverse]
  | true, c :: r, acc =>
    if isJsSpace c then wsGo true r acc else wsGo false r (c :: acc)
  | false, c :: r, acc =>
    if isJsSpace c then acc.reverse :: wsGo true r [] else wsGo false r (c :: acc)

/-- JS `s.split(/\s+/)`. -/
def jsSplitWs (l : List Char) : List (List Char) := wsGo false l []

/-- JS `Array.prototype.slice(start)` with a single (possibly negative)
argument, as in `curWordsArr.slice(-opts.overlap_words)` (line 175). -/
def jsSliceFrom (start : Int) (l : List (List Char)) : List (List Char) :=
  if start < 0 then l.drop (((l.length : Int) + start).toNat) else l.drop start.toNat

/-- A chunk as pushed by `pushCur` (line 165): trimmed text plus the word
counter value at push time. -/
structure RawChunk where
  text : List Char
  words : Nat
  deriving DecidableEq

/-- Final chunk shape (lines 184-188). -/
structure Chunk where
  chunk_index : Nat
  text : List Char
  approx_words : Nat
  deriving DecidableEq

/-- `pushCur` (lines 163-169): emits the trimmed buffer when it is a
truthy (non-empty) string, along with the tracked word count. -/
def pushChunk (cur : List Char) (curWords : Nat) : List RawChunk :=
  if jsTrim cur = [] then [] else [⟨jsTrim cur, curWords⟩]

/-- The accumulation loop of `chunkMarkdown` (lines 170-183).  In the
closing branch the source calls `pushCur()` first, which resets `cur` to
the empty string, and only then computes `curWordsArr` from `cur`
(line 174); the embedding therefore slices the split of the empty string,
exactly as the code executes. -/
def chunkLoop (tw ow : Int) : List (List Char) → List Char → Nat → List RawChunk
  | [], cur, curWords => pushChunk cur curWords
  | p :: ps, cur, curWords =>
    let w := countWords p
    if ((curWords : Int) + (w : Int) > tw ∧ 0 < curWords) then
      pushChunk cur curWords ++
        (let curWordsArr := jsSplitWs []
         let overlap := List.intercalate [' '] (jsSliceFrom (-ow) curWordsArr)
         chunkLoop tw ow ps (overlap ++ ('\n' :: '\n' :: p)) (countWords overlap + w))
    else
      chunkLoop tw ow ps (cur ++ ('\n' :: '\n' :: p)) (curWords + w)

/-- Number the emitted chunks 0.. (lines 184-188). -/
def indexChunks : Nat → List RawChunk → List Chunk
  | _, [] => []
  | i, c :: r => ⟨i, c.text, c.words⟩ :: indexChunks (i + 1) r

/-- `chunkMarkdown(md, {target_words, overlap_words})` (lines 158-189). -/
def chunkMarkdown (md : List Char) (tw ow : Int) : List Chunk :=
  indexChunks 0 (chunkLoop tw ow (splitParts md) [] 0)

/-- `meta` record built by the handler (lines 281-288). -/
structure Meta where
  title : List Char
  url : List Char
  domain : List Char
  crawled_at : List Char
  content_hash : List Char
  excerpt : List Char
  deriving DecidableEq

/-- First stage of `escape` (line 142): `replace(/"/g, "\\\"")`. -/
def escQ : List Char → List Char
  | [] => []
  | c :: r => if c = '"' then '\\' :: '"' :: escQ r else c :: escQ r

/-- Second stage of `escape` (line 142): `replace(/\n/g, " ")`. -/
def nl2sp : List Char → List Char
  | [] => []
  | c :: r => if c = '\n' then ' ' :: nl2sp r else c :: nl2sp r

/-- The `escape` helper of `addFrontmatter` (line 142). -/
def escapeFm (s : List Char) : List Char := nl2sp (escQ s)

/-- `addFrontmatter(md, meta)` (lines 141-155): the nine array entries
joined with a newline, then the body appended.  Only `title` and
`excerpt` go through `escape`; the trailing empty array entry makes the
join end with a single newline right before the body. -/
def addFrontmatter (md : List Char) (m : Meta) : List Char :=
  str "---" ++ '\n' ::
  ((str "title: \"" ++ (escapeFm m.title ++ str "\"")) ++ '\n' ::
  ((str "url: \"" ++ (m.url ++ str "\"")) ++ '\n' ::
  ((str "domain: \"" ++ (m.domain ++ str "\"")) ++ '\n' ::
  ((str "crawled_at: \"" ++ (m.crawled_at ++ str "\"")) ++ '\n' ::
  ((str "content_hash: \"" ++ (m.content_hash ++ str "\"")) ++ '\n' ::
  ((str "excerpt: \"" ++ (escapeFm m.excerpt ++ str "\"")) ++ '\n' ::
  (str "---" ++ '\n' :: md)))))))

/-- One `field: "value"` line, written from the words of claim C7. -/
def fmField (label : List Char) (v : List Char) : List Char :=
  label ++ ':' :: ' ' :: '"' :: (v ++ ['"'])

/-- Modelled from the words of claim C7 as stated: every one of the six
string fields is escaped, the fields appear in the fixed order between
the delimiters, and the closing delimiter is followed by a blank line and
then the body. -/
def frontmatterPerClaim (md : List Char) (m : Meta) : List Char :=
  str "---" ++ '\n' ::
  (fmField (str "title") (escapeFm m.title) ++ '\n' ::
  (fmField (str "url") (escapeFm m.url) ++ '\n' ::
  (fmField (str "domain") (escapeFm m.domain) ++ '\n' ::
  (fmField (str "crawled_at") (escapeFm m.crawled_at) ++ '\n' ::
  (fmField (str "content_hash") (escapeFm m.content_hash) ++ '\n' ::
  (fmField (str "excerpt") (escapeFm m.excerpt) ++ '\n' ::
  (str "---" ++ '\n' :: '\n' :: md)))))))

/-- Modelled from the amended wording of claim C7: only `title` and
`excerpt` are escaped, the other four fields are embedded verbatim, the
order is fixed, and the closing delimiter is followed by a single newline
and then immediately the body (no blank line). -/
def frontmatterPerAmendedClaim (md : List Char) (m : Meta) : List Char :=
  str "---" ++ '\n' ::
  (fmField (str "title") (escapeFm m.title) ++ '\n' ::
  (fmField (str "url") m.url ++ '\n' ::
  (fmField (str "domain") m.domain ++ '\n' ::
  (fmField (str "crawled_at") m.crawled_at ++ '\n' ::
  (fmField (str "content_hash") m.content_hash ++ '\n' ::
  (fmField (str "excerpt") (escapeFm m.excerpt) ++ '\n' ::
  (str "---" ++ '\n' :: md)))))))

/-- Result of `fetchPage` on success (lines 87-126). -/
structure Fetched where
  html : List Char
  finalUrl : List Char
  status : Nat
  deriving DecidableEq

/-- What the readability heuristic returns when it parses something:
`{title, content, excerpt}`, null fields mapped to the empty string the
way the handler's `|| ""` defaults do. -/
structure Article where
  title : List Char
  content : List Char
  excerpt : List Char
  deriving DecidableEq

/-- The `resultJson` record (lines 295-301). -/
structure ResultJson where
  id : List Char
  meta : Meta
  md : List Char
  chunks : List Chunk
  fetchedStatus : Nat
  deriving DecidableEq

/-- A cache file value `{json, md}` (line 303). -/
structure CacheEntry where
  json : ResultJson
  md : List Char
  deriving DecidableEq

/-- The filesystem cache, one entry per key (cacheGet/cacheSet,
lines 192-210), modelled as an association list with reliable reads and
writes. -/
abbrev Cache := List (List Char × CacheEntry)

def cacheLookup : Cache → List Char → Option CacheEntry
  | [], _ => none
  | (k, e) :: r, key => if k = key then some e else cacheLookup r key

def cacheInsert (c : Cache) (k : List Char) (e : CacheEntry) : Cache := (k, e) :: c

/-- The external collaborators of one request, plus the fetched page:
`extract` is `extractMain` (Readability), `turndown` is `htmlToMarkdown`,
`sha256hex` the digest, `hostname` the `new URL(u).hostname` parser,
`nowIso` the crawl timestamp, `docTitle`/`docBody` what a reparse of the
raw HTML would expose to the (dead) fallback branch. -/
structure World where
  fetchResult : Fetched
  extract : List Char → List Char → Option Article
  docTitle : List Char
  docBody : List Char
  turndown : List Char → List Char
  sha256hex : List Char → List Char
  hostname : List Char → List Char
  nowIso : List Char

/-- `fetched.finalUrl || url` (lines 263, 283-284): the empty string is
falsy. -/
def effectiveUrl (w : World) (url : List Char) : List Char :=
  if w.fetchResult.finalUrl = [] then url else w.fetchResult.finalUrl

/-- Decimal rendering of the `target_words` number when concatenated into
the cache key string (line 246). -/
def jsIntStr (n : Int) : List Char := (toString n).data

/-- The cache key `sha256hex(url + "|" + (render ? "r" : "n") + "|" +
target_words)` (lines 245-247).  Note `raw` is not part of the key. -/
def cacheKey (w : World) (url : List Char) (render : Bool) (tw : Int) : List Char :=
  w.sha256hex (url ++ '|' :: ((if render then str "r" else str "n") ++ '|' :: jsIntStr tw))

/-- The `meta` object (lines 281-288). -/
def buildMeta (w : World) (url : List Char) (a : Article) : Meta :=
  { title := a.title
    url := effectiveUrl w url
    domain := w.hostname (effectiveUrl w url)
    crawled_at := w.nowIso
    content_hash := w.sha256hex (w.turndown a.content)
    excerpt := a.excerpt }

/-- `mdWithFM` (line 289): frontmatter prepended to the converted body. -/
def buildMd (w : World) (url : List Char) (a : Article) : List Char :=
  addFrontmatter (w.turndown a.content) (buildMeta w url a)

/-- The `overlap_words` value the handler passes to the chunker
(line 292): `Math.min(250, Math.floor(target_words * 0.2))`.  For every
integer value a double can hold, `Math.floor(t * 0.2)` agrees with the
mathematical `⌊t / 5⌋` wherever the 250 cap does not mask the difference
(the stored 0.2 is slightly above 1/5, so the product never rounds below
a multiple of 5, and below the cap the absolute float error is far under
the 0.2 distance to the next integer), so the embedding uses `Int.fdiv`. -/
def overlapArg (tw : Int) : Int := min 250 (Int.fdiv tw 5)

/-- `resultJson` (lines 295-301): `id` is the digest of
`meta.url + "|" + meta.content_hash` (line 296). -/
def buildResult (w : World) (url : List Char) (tw : Int) (a : Article) : ResultJson :=
  { id := w.sha256hex ((buildMeta w url a).url ++ '|' :: (buildMeta w url a).content_hash)
    meta := buildMeta w url a
    md := buildMd w url a
    chunks := chunkMarkdown (buildMd w url a) tw (overlapArg tw)
    fetchedStatus := w.fetchResult.status }

/-- Outcome of the post-fetch part of the handler. -/
inductive PipeOut
  | tyErr : PipeOut
  | ok : ResultJson → PipeOut
  deriving DecidableEq

/-- Lines 263-301 of the handler.  `article` is bound with `const` at
line 263; when the extraction is null or has falsy content, the fallback
branch (lines 265-277) assigns to that `const` binding at line 267, which
in JS raises a TypeError before the fallback object or the 422 check at
line 275 can take effect.  The route's catch (line 313) turns it into a
500 response, so the branch is embedded as `tyErr`. -/
def postFetch (w : World) (url : List Char) (tw : Int) : PipeOut :=
  match w.extract w.fetchResult.html (effectiveUrl w url) with
  | none => PipeOut.tyErr
  | some a => if a.content = [] then PipeOut.tyErr else PipeOut.ok (buildResult w url tw a)

/-- HTTP outcomes of the handler after the robots check: a JSON 200, a
raw-markdown 200, the 422 of line 275 (shown unreachable), or a 500 from
the catch at line 313 (whose message text is engine specific). -/
inductive Response
  | json200 : ResultJson → Response
  | raw200 : List Char → Response
  | err422 : Response
  | err500 : Response
  deriving DecidableEq

/-- The cached/fresh dispatch of the handler (lines 243-312).  Returns
the response, the cache after the request, and whether `fetchPage` was
invoked. -/
def processRequest (w : World) (cache : Cache) (url : List Char) (render : Bool)
    (tw : Int) (raw : Bool) : Response × Cache × Bool :=
  let key := cacheKey w url render tw
  match cacheLookup cache key with
  | some e => (if raw then Response.raw200 e.md else Response.json200 e.json, cache, false)
  | none =>
    match postFetch w url tw with
    | PipeOut.tyErr => (Response.err500, cache, true)
    | PipeOut.ok r =>
      (if raw then Response.raw200 r.md else Response.json200 r,
       cacheInsert cache key ⟨r, r.md⟩, true)

/-- Sum of the word counts of a list of segments. -/
def sumWords : List (List Char) → Nat
  | [] => 0
  | p :: ps => countWords p + sumWords ps

/-- The segments re-joined the way the chunk loop appends them
(`"\n\n" + p` per segment). -/
def glueParts : List (List Char) → List Char
  | [] => []
  | p :: ps => '\n' :: '\n' :: (p ++ glueParts ps)

/-- Largest single-segment word count of a document under the chunker
split. -/
def segMax : List (List Char) → Nat
  | [] => 0
  | p :: ps => max (countWords p) (segMax ps)

def maxSegWords (md : List Char) : Nat := segMax (splitParts md)

/-! ### Concrete instances evaluated in the checks below -/

/-- A small article as the readability heuristic could return it. -/
def a0 : Article := ⟨str "T", str "c", str "e"⟩

/-- A request world whose extraction succeeds; identity stand-ins for the
digest and converter keep the closed evaluations small. -/
def w2 : World :=
  { fetchResult := ⟨str "h", str "u", 200⟩
    extract := fun _ _ => some a0
    docTitle := str "T"
    docBody := str "b"
    turndown := fun s => s
    sha256hex := fun s => s
    hostname := fun _ => str "d"
    nowIso := str "t1" }

/-- Same request world observed at a later crawl time. -/
def w3 : World := { w2 with nowIso := str "t2" }

/-- A request world where the readability heuristic yields nothing while
the document body is non-empty. -/
def w0 : World := { w2 with extract := fun _ _ => none }

/-- A request world where the readability heuristic yields nothing and
the document body is empty as well. -/
def w1 : World := { w0 with docBody := str "" }

/-- A stored result, entry and one-entry cache. -/
def r0 : ResultJson := ⟨str "i", ⟨str "t", str "u", str "d", str "ts", str "h", str "e"⟩, str "m", [], 200⟩

def e0 : CacheEntry := ⟨r0, str "m"⟩

def cache0 : Cache := [(cacheKey w2 (str "u") true 5, e0)]

/-- Frontmatter metadata whose url field contains a double quote. -/
def m0 : Meta := ⟨str "t", str "a\"b", str "d", str "ts", str "h", str "e"⟩

/-! ### Word-count algebra -/

theorem cwGo_nl (r : List Char) (b : Bool) : cwGo ('\n' :: r) b = cwGo r false := by
  have h : isJsSpace '\n' = true := by decide
  simp [cwGo, h]

theorem cwGo_append (x y : List Char) (b : Bool) :
    cwGo (x ++ y) b = cwGo x b + cwGo y (wordState x b) := by
  induction x generalizing b with
  | nil => simp [cwGo, wordState]
  | cons c r ih =>
    cases hsp : isJsSpace c with
    | true => simp [cwGo, wordState, hsp, ih]
    | false => simp [cwGo, wordState, hsp, ih]; omega

theorem cwGo_all_space (s : List Char) (h : ∀ c ∈ s, isJsSpace c = true) (b : Bool) :
    cwGo s b = 0 := by
  induction s generalizing b with
  | nil => simp [cwGo]
  | cons c r ih =>
    have hc := h c (by simp)
    simp [cwGo, hc]
    exact ih (fun d hd => h d (by simp [hd])) false

theorem cwGo_dropWhile (l : List Char) :
    cwGo (l.dropWhile isJsSpace) false = cwGo l false := by
  induction l with
  | nil => rfl
  | cons c r ih =>
    cases hsp : isJsSpace c with
    | true => rw [List.dropWhile_cons, if_pos hsp, ih, cwGo, if_pos hsp]
    | false => rw [List.dropWhile_cons, if_neg (by simp [hsp])]

theorem countWords_jsTrim (l : List Char) : countWords (jsTrim l) = countWords l := by
  unfold jsTrim countWords
  have h1 : cwGo (l.dropWhile isJsSpace) false = cwGo l false := cwGo_dropWhile l
  set m := l.dropWhile isJsSpace with hm
  have hdecomp : m = (m.reverse.dropWhile isJsSpace).reverse ++
      (m.reverse.takeWhile isJsSpace).reverse := by
    conv_lhs => rw [← List.reverse_reverse m]
    conv_lhs => rw [← List.takeWhile_append_dropWhile (p := isJsSpace) (l := m.reverse)]
    rw [List.reverse_append]
  have hsp : ∀ c ∈ (m.reverse.takeWhile isJsSpace).reverse, isJsSpace c = true := by
    intro c hc
    rw [List.mem_reverse] at hc
    exact List.mem_takeWhile_imp hc
  have h2 := cwGo_append (m.reverse.dropWhile isJsSpace).reverse
    (m.reverse.takeWhile isJsSpace).reverse false
  rw [← hdecomp, cwGo_all_space _ hsp] at h2
  omega

theorem jsTrim_ne_nil (l : List Char) (h : 0 < countWords l) : jsTrim l ≠ [] := by
  intro hc
  have h2 := countWords_jsTrim l
  rw [hc, show countWords ([] : List Char) = 0 from rfl] at h2
  omega

/-! ### The overlap seeded after a close is always empty -/

theorem intercalate_drop_single (n : Nat) :
    List.intercalate [' '] (List.drop n [([] : List Char)]) = [] := by
  cases n with
  | zero => rfl
  | succ k =>
    rw [show List.drop (k + 1) [([] : List Char)] = List.drop k [] from rfl, List.drop_nil]
    simp [List.intercalate]

theorem overlap_nil (ow : Int) :
    List.intercalate [' '] (jsSliceFrom (-ow) (jsSplitWs [])) = [] := by
  rw [show jsSplitWs ([] : List Char) = [[]] from rfl]
  unfold jsSliceFrom
  split
  · exact intercalate_drop_single _
  · exact intercalate_drop_single _

/-! ### Sum of segment word counts equals the document word count -/

theorem splitGo_sum (sk : Bool) (s acc : List Char) :
    (sk = true → acc = []) →
    sumWords (splitGo sk s acc) = cwGo (acc.reverse ++ s) false := by
  induction sk, s, acc using splitGo.induct with
  | case1 x acc =>
    intro _
    simp [splitGo, sumWords, countWords]
  | case2 r acc ih =>
    intro h
    have hacc : acc = [] := h rfl
    subst hacc
    rw [show splitGo true ('\n' :: r) [] = splitGo true r [] from by simp [splitGo]]
    rw [ih (fun _ => rfl)]
    simp [cwGo_nl]
  | case3 c r acc hc ih =>
    intro h
    have hacc : acc = [] := h rfl
    subst hacc
    rw [show splitGo true (c :: r) [] = splitGo false r [c] from by simp [splitGo, hc]]
    rw [ih (by simp)]
    simp
  | case4 r acc ih =>
    rw [show splitGo false ('\n' :: '#' :: r) acc = acc.reverse :: splitGo false ('#' :: r) []
      from by simp [splitGo]]
    intro _
    have ih2 := ih (by simp)
    simp only [List.reverse_nil, List.nil_append] at ih2
    rw [sumWords, ih2]
    rw [show cwGo (acc.reverse ++ '\n' :: '#' :: r) false
        = cwGo acc.reverse false + cwGo ('#' :: r) false from by rw [cwGo_append, cwGo_nl]]
    simp [countWords]
  | case5 r acc ih =>
    rw [show splitGo false ('\n' :: '\n' :: r) acc = acc.reverse :: splitGo true r []
      from by simp [splitGo]]
    intro _
    have ih2 := ih (fun _ => rfl)
    simp only [List.reverse_nil, List.nil_append] at ih2
    rw [sumWords, ih2]
    rw [show cwGo (acc.reverse ++ '\n' :: '\n' :: r) false
        = cwGo acc.reverse false + cwGo r false from by rw [cwGo_append, cwGo_nl, cwGo_nl]]
    simp [countWords]
  | case6 c r acc h1 h2 ih =>
    intro _
    have he : splitGo false (c :: r) acc = splitGo false r (c :: acc) := by
      by_cases hc : c = '\n'
      · subst hc
        cases r with
        | nil => simp [splitGo]
        | cons c2 r2 =>
          have ha : ¬ c2 = '#' := fun hh => h1 r2 rfl (by rw [hh])
          have hb : ¬ c2 = '\n' := fun hh => h2 r2 rfl (by rw [hh])
          simp [splitGo, ha, hb]
      · simp [splitGo, hc]
    rw [he, ih (by simp)]
    simp [List.append_assoc]

theorem splitParts_sum (md : List Char) : sumWords (splitParts md) = countWords md := by
  have h := splitGo_sum false md [] (by simp)
  simpa [splitParts, countWords] using h

theorem cwGo_glueParts (ps : List (List Char)) (b : Bool) :
    cwGo (glueParts ps) b = sumWords ps := by
  induction ps generalizing b with
  | nil => simp [glueParts, sumWords, cwGo]
  | cons p ps ih =>
    simp only [glueParts]
    rw [cwGo_nl, cwGo_nl, cwGo_append, ih]
    simp [sumWords, countWords]

theorem countWords_append_nl2 (x p : List Char) :
    countWords (x ++ ('\n' :: '\n' :: p)) = countWords x + countWords p := by
  unfold countWords
  rw [cwGo_append, cwGo_nl, cwGo_nl]

theorem segMax_le {p : List Char} : ∀ {l : List (List Char)}, p ∈ l → countWords p ≤ segMax l := by
  intro l
  induction l with
  | nil => intro h; simp at h
  | cons q r ih =>
    intro h
    rcases List.mem_cons.mp h with h | h
    · subst h; simp [segMax]
    · exact le_trans (ih h) (by simp [segMax])

/-! ### Chunk loop invariants -/

theorem pushChunk_words {c : RawChunk} {cur : List Char} {cw : Nat}
    (h : c ∈ pushChunk cur cw) : c.words = cw := by
  unfold pushChunk at h
  split at h
  · simp at h
  · rw [List.mem_singleton] at h
    rw [h]

theorem pushChunk_of_pos (cur : List Char) (cw : Nat) (h : 0 < countWords cur) :
    pushChunk cur cw = [⟨jsTrim cur, cw⟩] := by
  unfold pushChunk
  rw [if_neg (jsTrim_ne_nil cur h)]

theorem chunkLoop_words_le (tw ow : Int) (B : Nat) (htB : tw ≤ (B : Int))
    (ps : List (List Char)) :
    ∀ (cur : List Char) (cw : Nat), cw ≤ B → (∀ p ∈ ps, countWords p ≤ B) →
    ∀ c ∈ chunkLoop tw ow ps cur cw, c.words ≤ B := by
  induction ps with
  | nil =>
    intro cur cw hcw _ c hc
    rw [show chunkLoop tw ow [] cur cw = pushChunk cur cw from rfl] at hc
    rw [pushChunk_words hc]
    exact hcw
  | cons p ps ih =>
    intro cur cw hcw hseg c hc
    have hp : countWords p ≤ B := hseg p (by simp)
    simp only [chunkLoop] at hc
    split at hc
    · rw [overlap_nil] at hc
      rcases List.mem_append.mp hc with h1 | h1
      · rw [pushChunk_words h1]; exact hcw
      · refine ih _ _ ?_ (fun q hq => hseg q (by simp [hq])) c h1
        rw [show countWords ([] : List Char) = 0 from rfl]
        omega
    · rename_i hcond
      refine ih _ _ ?_ (fun q hq => hseg q (by simp [hq])) c hc
      rcases not_and_or.mp hcond with h1 | h1
      · push_neg at h1
        omega
      · push_neg at h1
        omega

theorem chunkLoop_noclose (tw ow : Int) (ps : List (List Char)) :
    ∀ (cur : List Char) (cw : Nat), ((cw : Int) + (sumWords ps : Int) ≤ tw) →
    chunkLoop tw ow ps cur cw = pushChunk (cur ++ glueParts ps) (cw + sumWords ps) := by
  induction ps with
  | nil => intro cur cw _; simp [chunkLoop, glueParts, sumWords]
  | cons p ps ih =>
    intro cur cw h
    rw [show (sumWords (p :: ps) : Int) = (countWords p : Int) + (sumWords ps : Int) from by
      push_cast [sumWords]; ring] at h
    have hsum : (0 : Int) ≤ (sumWords ps : Int) := by positivity
    simp only [chunkLoop]
    rw [if_neg (by
      rintro ⟨h1, _⟩
      omega)]
    rw [ih _ _ (by push_cast; omega)]
    congr 1
    · simp [glueParts, List.append_assoc]
    · simp [sumWords]
      omega

theorem chunkLoop_ne_nil (tw ow : Int) (ps : List (List Char)) :
    ∀ (cur : List Char) (cw : Nat), cw = countWords cur →
    0 < countWords cur + sumWords ps →
    chunkLoop tw ow ps cur cw ≠ [] := by
  induction ps with
  | nil =>
    intro cur cw hcw hpos
    rw [show sumWords [] = 0 from rfl] at hpos
    rw [show chunkLoop tw ow [] cur cw = pushChunk cur cw from rfl]
    rw [pushChunk_of_pos cur cw (by omega)]
    simp
  | cons p ps ih =>
    intro cur cw hcw hpos
    simp only [chunkLoop]
    split
    · rename_i hcond
      rw [pushChunk_of_pos cur cw (by omega)]
      simp
    · rename_i hcond
      apply ih
      · rw [countWords_append_nl2, ← hcw]
      · rw [countWords_append_nl2]
        rw [show sumWords (p :: ps) = countWords p + sumWords ps from rfl] at hpos
        omega

/-! ### Transfer through the final numbering pass -/

theorem indexChunks_length (i : Nat) (l : List RawChunk) :
    (indexChunks i l).length = l.length := by
  induction l generalizing i with
  | nil => rfl
  | cons c r ih => simp [indexChunks, ih]

theorem indexChunks_mem {c : Chunk} :
    ∀ (i : Nat) (l : List RawChunk), c ∈ indexChunks i l →
    ∃ rc ∈ l, c.approx_words = rc.words := by
  intro i l
  induction l generalizing i with
  | nil => intro h; simp [indexChunks] at h
  | cons q r ih =>
    intro h
    rcases List.mem_cons.mp h with h | h
    · exact ⟨q, by simp, by rw [h]⟩
    · obtain ⟨rc, hm, he⟩ := ih (i + 1) h
      exact ⟨rc, by simp [hm], he⟩

theorem indexChunks_eq_nil {i : Nat} {l : List RawChunk} :
    indexChunks i l = [] ↔ l = [] := by
  cases l <;> simp [indexChunks]

/-! ### Chunker-level facts -/

theorem chunkMarkdown_words_le (md : List Char) (tw ow : Int) :
    ∀ c ∈ chunkMarkdown md tw ow, c.approx_words ≤ tw.toNat + maxSegWords md := by
  intro c hc
  unfold chunkMarkdown at hc
  obtain ⟨rc, hrc, he⟩ := indexChunks_mem _ _ hc
  rw [he]
  refine chunkLoop_words_le tw ow (tw.toNat + maxSegWords md) ?_ (splitParts md) [] 0
    (by simp) ?_ rc hrc
  · have := Int.self_le_toNat tw
    push_cast
    omega
  · intro p hp
    exact le_trans (segMax_le hp) (Nat.le_add_left _ _)

theorem chunkMarkdown_single (md : List Char) (tw ow : Int)
    (h1 : 1 ≤ countWords md) (h2 : countWords md ≤ tw.toNat) :
    (chunkMarkdown md tw ow).length = 1 := by
  have hsum : sumWords (splitParts md) = countWords md := splitParts_sum md
  have hglue : countWords (glueParts (splitParts md)) = countWords md := by
    rw [show countWords (glueParts (splitParts md))
        = cwGo (glueParts (splitParts md)) false from rfl, cwGo_glueParts, hsum]
  unfold chunkMarkdown
  rw [chunkLoop_noclose tw ow (splitParts md) [] 0 (by
    rw [hsum]
    have := Int.self_le_toNat tw
    omega)]
  rw [List.nil_append, Nat.zero_add, hsum]
  rw [pushChunk_of_pos _ _ (by omega)]
  simp [indexChunks]

theorem chunkMarkdown_ne_nil (md : List Char) (tw ow : Int) (h : 0 < countWords md) :
    chunkMarkdown md tw ow ≠ [] := by
  unfold chunkMarkdown
  intro hcon
  rw [indexChunks_eq_nil] at hcon
  exact chunkLoop_ne_nil tw ow (splitParts md) [] 0 rfl
    (by rw [splitParts_sum, show countWords ([] : List Char) = 0 from rfl]; omega) hcon

/-! ### Frontmatter and cache facts -/

theorem countWords_addFrontmatter_pos (md : List Char) (m : Meta) :
    0 < countWords (addFrontmatter md m) := by
  unfold addFrontmatter countWords
  rw [cwGo_append]
  rw [show cwGo (str "---") false = 1 from by decide]
  omega

theorem cacheLookup_insert (c : Cache) (k : List Char) (e : CacheEntry) :
    cacheLookup (cacheInsert c k e) k = some e := by
  simp [cacheInsert, cacheLookup]

/-! ### The claims -/

/-- C1: the chunker is claimed to seed each new buffer with the last
`overlapWords` words of the just-closed buffer so that consecutive chunks
share that text.  In the code, `pushCur()` resets `cur` to the empty
string before the overlap is sliced from it (lines 173-175), so the
overlap is always empty: on a two-segment document that forces a
boundary with `target_words = 3` and `overlap_words = 2`, the second
chunk is exactly the second segment, with no shared words from the
first. -/
theorem C1_overlap_not_seeded :
    chunkMarkdown (str "one two three\n\nfour five six") 3 2 =
      [⟨0, str "one two three", 3⟩, ⟨1, str "four five six", 3⟩] := by decide

/-- C2: the fallback substitution can never produce a successful
response.  With a primary extraction returning null and a non-empty
document body, the handler hits the assignment to the `const` binding
`article` (line 267), which raises a TypeError, and the request ends in
the catch with a 500 instead of succeeding with body-derived Markdown. -/
theorem C2_fallback_branch_throws :
    w0.docBody ≠ [] ∧
    postFetch w0 (str "u") 1000 = PipeOut.tyErr ∧
    processRequest w0 [] (str "u") true 1000 false = (Response.err500, [], true) := by decide

/-- C3: when both the primary extraction and the fallback would yield
empty content, the claimed 422 is never produced: the `const`
reassignment at line 267 throws before the 422 check at line 275 runs,
so the handler answers 500. -/
theorem C3_no_422_emitted :
    w1.docBody = [] ∧
    postFetch w1 (str "u") 1000 = PipeOut.tyErr ∧
    processRequest w1 [] (str "u") true 1000 false = (Response.err500, [], true) ∧
    (processRequest w1 [] (str "u") true 1000 false).1 ≠ Response.err422 := by decide

/-- C4: `contentHash` is the digest of the Markdown body before the
frontmatter is prepended, `id` is the digest of the final url joined to
the content hash, and two scrapes that produce the same extracted
Markdown from the same final url agree on both, independently of the
crawl timestamps carried by the two worlds. -/
theorem C4_content_hash_and_id_stable (w w' : World) (url url' : List Char)
    (t t' : Int) (a a' : Article)
    (hh : w.sha256hex = w'.sha256hex)
    (hmd : w.turndown a.content = w'.turndown a'.content)
    (hu : effectiveUrl w url = effectiveUrl w' url') :
    (buildResult w url t a).meta.content_hash = w.sha256hex (w.turndown a.content) ∧
    (buildResult w url t a).id =
      w.sha256hex (effectiveUrl w url ++ '|' :: w.sha256hex (w.turndown a.content)) ∧
    (buildResult w' url' t' a').meta.content_hash
      = (buildResult w url t a).meta.content_hash ∧
    (buildResult w' url' t' a').id = (buildResult w url t a).id := by
  refine ⟨rfl, rfl, ?_, ?_⟩
  · show w'.sha256hex (w'.turndown a'.content) = w.sha256hex (w.turndown a.content)
    rw [← hh, ← hmd]
  · show w'.sha256hex (effectiveUrl w' url' ++ '|' :: w'.sha256hex (w'.turndown a'.content))
      = w.sha256hex (effectiveUrl w url ++ '|' :: w.sha256hex (w.turndown a.content))
    rw [← hh, ← hmd, ← hu]

/-- Witness for C4: the same page scraped at crawl times t1 and t2
yields identical content hashes and ids. -/
theorem C4_witness :
    (w2.sha256hex = w3.sha256hex ∧ w2.turndown a0.content = w3.turndown a0.content ∧
      effectiveUrl w2 (str "u") = effectiveUrl w3 (str "u")) ∧
    (buildResult w3 (str "u") 9 a0).meta.content_hash
      = (buildResult w2 (str "u") 9 a0).meta.content_hash ∧
    (buildResult w3 (str "u") 9 a0).id = (buildResult w2 (str "u") 9 a0).id :=
  ⟨⟨rfl, rfl, rfl⟩,
    (C4_content_hash_and_id_stable w2 w3 (str "u") (str "u") 9 9 a0 a0 rfl rfl rfl).2.2.1,
    (C4_content_hash_and_id_stable w2 w3 (str "u") (str "u") 9 9 a0 a0 rfl rfl rfl).2.2.2⟩

/-- C5: when the cache has an entry under the request key, the handler
returns the stored markdown (raw) or stored json (structured) unchanged
and the page fetcher is not invoked (third component `false`). -/
theorem C5_cache_hit_short_circuit (w : World) (cache : Cache) (url : List Char)
    (render : Bool) (tw : Int) (raw : Bool) (e : CacheEntry)
    (h : cacheLookup cache (cacheKey w url render tw) = some e) :
    processRequest w cache url render tw raw =
      ((if raw then Response.raw200 e.md else Response.json200 e.json), cache, false) := by
  simp [processRequest, h]

/-- Witness for C5: a concrete one-entry cache is served without a
fetch. -/
theorem C5_witness :
    processRequest w2 cache0 (str "u") true 5 false = (Response.json200 r0, cache0, false) := by
  simpa using C5_cache_hit_short_circuit w2 cache0 (str "u") true 5 false e0 (by decide)

/-- C6 counterexample: a single-space document is a non-empty input with
zero (hence at most `targetWords`) whitespace-delimited words, yet the
chunker emits no chunk at all rather than exactly one. -/
theorem C6_counterexample :
    str " " ≠ [] ∧ countWords (str " ") ≤ (1000 : Int).toNat ∧
    chunkMarkdown (str " ") 1000 150 = [] := by decide

/-- C6 (amended): every emitted chunk has `approx_words` at most
`targetWords` plus the largest single-segment word count, and a document
with at least one word and total word count at most `targetWords` yields
exactly one chunk. -/
theorem C6_chunk_sizing (md : List Char) (tw ow : Int) :
    (∀ c ∈ chunkMarkdown md tw ow, c.approx_words ≤ tw.toNat + maxSegWords md) ∧
    (1 ≤ countWords md → countWords md ≤ tw.toNat → (chunkMarkdown md tw ow).length = 1) :=
  ⟨chunkMarkdown_words_le md tw ow, fun h1 h2 => chunkMarkdown_single md tw ow h1 h2⟩

/-- Witness for C6: a two-word document under the default target yields
exactly one chunk. -/
theorem C6_witness :
    (1 ≤ countWords (str "a b") ∧ countWords (str "a b") ≤ (1000 : Int).toNat) ∧
    (chunkMarkdown (str "a b") 1000 150).length = 1 :=
  ⟨⟨by decide, by decide⟩, (C6_chunk_sizing (str "a b") 1000 150).2 (by decide) (by decide)⟩

/-- C7 counterexample: on a metadata record whose url contains a double
quote, the composed frontmatter differs from the claimed form in which
every string field is escaped and a blank line separates the block from
the body: the url is embedded verbatim and no blank line is emitted. -/
theorem C7_counterexample :
    addFrontmatter (str "x") m0 ≠ frontmatterPerClaim (str "x") m0 := by decide

/-- C7 (amended): the frontmatter block has the fixed field order title,
url, domain, crawled_at, content_hash, excerpt between the `---`
delimiters; only title and excerpt are escaped (quotes backslashed,
newlines collapsed to spaces) while url, domain, crawled_at and
content_hash are embedded verbatim; and the closing delimiter is
followed by a single newline and then immediately the body. -/
theorem C7_frontmatter_format (md : List Char) (m : Meta) :
    addFrontmatter md m = frontmatterPerAmendedClaim md m := rfl

/-- C8: the overlap value the handler passes to the chunker equals
`min 250 ⌊targetWords / 5⌋`, the embedding of
`Math.min(250, Math.floor(target_words * 0.2))`, and therefore never
exceeds the cap. -/
theorem C8_overlap_cap (w : World) (url : List Char) (tw : Int) (a : Article) :
    (buildResult w url tw a).chunks
      = chunkMarkdown (buildMd w url a) tw (min 250 (Int.fdiv tw 5)) ∧
    overlapArg tw = min 250 (Int.fdiv tw 5) ∧ overlapArg tw ≤ 250 :=
  ⟨rfl, rfl, min_le_left _ _⟩

/-- C9: a fresh (cache-miss) 200 JSON response always carries a
non-empty chunk sequence: the frontmatter block prepended to any
(possibly empty) Markdown body contains words, so the chunker emits at
least one chunk. -/
theorem C9_chunks_nonempty (w : World) (cache : Cache) (url : List Char) (render : Bool)
    (tw : Int) (a : Article)
    (hmiss : cacheLookup cache (cacheKey w url render tw) = none)
    (hex : w.extract w.fetchResult.html (effectiveUrl w url) = some a)
    (hc : a.content ≠ []) :
    (processRequest w cache url render tw false).1
      = Response.json200 (buildResult w url tw a) ∧
    (buildResult w url tw a).chunks ≠ [] := by
  constructor
  · simp [processRequest, hmiss, postFetch, hex, hc]
  · show chunkMarkdown (buildMd w url a) tw (overlapArg tw) ≠ []
    exact chunkMarkdown_ne_nil _ _ _ (countWords_addFrontmatter_pos _ _)

/-- Witness for C9: a concrete fresh scrape returns a JSON 200 whose
chunk list is non-empty. -/
theorem C9_witness :
    (processRequest w2 [] (str "u") true 5 false).1
      = Response.json200 (buildResult w2 (str "u") 5 a0) ∧
    (buildResult w2 (str "u") 5 a0).chunks ≠ [] :=
  C9_chunks_nonempty w2 [] (str "u") true 5 a0 rfl rfl (by decide)

/-- C10: the cache key is computed from url, render flag and
target_words only (`raw` is not an argument of `cacheKey`), and a stored
entry keeps both the json result and the markdown string; hence a second
request identical up to `raw` is served from the entry written by the
first, as markdown when `raw` is true and as the json result otherwise,
without invoking the fetcher. -/
theorem C10_raw_not_in_key (w : World) (cache : Cache) (url : List Char) (render : Bool)
    (tw : Int) (raw1 raw2 : Bool) (r : ResultJson)
    (hmiss : cacheLookup cache (cacheKey w url render tw) = none)
    (hok : postFetch w url tw = PipeOut.ok r) :
    (processRequest w cache url render tw raw1).2.1
      = cacheInsert cache (cacheKey w url render tw) ⟨r, r.md⟩ ∧
    processRequest w ((processRequest w cache url render tw raw1).2.1) url render tw raw2
      = ((if raw2 then Response.raw200 r.md else Response.json200 r),
         (processRequest w cache url render tw raw1).2.1, false) := by
  have h1 : (processRequest w cache url render tw raw1).2.1
      = cacheInsert cache (cacheKey w url render tw) ⟨r, r.md⟩ := by
    simp [processRequest, hmiss, hok]
  refine ⟨h1, ?_⟩
  rw [h1]
  simp [processRequest, cacheLookup_insert]

/-- Witness for C10: a first request with `raw = true` populates the
cache and a second request with `raw = false` on the same key is served
the stored json result without a fetch. -/
theorem C10_witness :
    processRequest w2 ((processRequest w2 [] (str "u") true 5 true).2.1) (str "u") true 5 false
      = (Response.json200 (buildResult w2 (str "u") 5 a0),
         (processRequest w2 [] (str "u") true 5 true).2.1, false) := by
  simpa using (C10_raw_not_in_key w2 [] (str "u") true 5 true false
    (buildResult w2 (str "u") 5 a0) rfl (by decide)).2

end W2M
